import Mathlib

set_option maxRecDepth 8192

/-!
Verification development for the Ethiopia Tender Watcher (src/main.py).

The Python program is shallowly embedded: pure helpers become Lean functions,
the stateful run cycle becomes explicit state passing over an association list
(modelling the JSON state dict), machine side effects (HTTP, sleeping, the
clock, SMTP) become explicit parameters (attempt outcomes, jitter draws, a
`now` value in epoch seconds).  Timestamps, which Python stores as floats, are
modelled as natural numbers of epoch seconds: every comparison performed by the
program is an order comparison that the embedding mirrors.  Strings are
lowercased ASCII-wise (`Char.toLower`), matching Python `str.lower` on the
ASCII inputs the claims are about.

`hashlib.sha256(...).hexdigest()` is embedded as a full executable SHA-256
over the UTF-8 bytes of the input string, so fingerprints are computed for
real, not stubbed.
-/

/-! ### SHA-256 (embedding of `hashlib.sha256(...).hexdigest()`) -/

/-- UTF-8 encoding of one character (Python `str.encode "utf-8"`). -/
def utf8Bytes (c : Char) : List Nat :=
  let n := c.toNat
  if n < 128 then [n]
  else if n < 2048 then [192 ||| (n >>> 6), 128 ||| (n &&& 63)]
  else if n < 65536 then
    [224 ||| (n >>> 12), 128 ||| ((n >>> 6) &&& 63), 128 ||| (n &&& 63)]
  else
    [240 ||| (n >>> 18), 128 ||| ((n >>> 12) &&& 63),
     128 ||| ((n >>> 6) &&& 63), 128 ||| (n &&& 63)]

/-- Concatenated UTF-8 bytes of a character list. -/
def flatBytes : List Char → List Nat
  | [] => []
  | c :: cs => utf8Bytes c ++ flatBytes cs

/-- UTF-8 bytes of a string. -/
def strBytes (s : String) : List Nat := flatBytes s.data

/-- 32-bit right rotation (argument assumed < 2^32). -/
def rotr (n x : Nat) : Nat := ((x >>> n) ||| (x <<< (32 - n))) % 4294967296

/-- The 64 SHA-256 round constants (FIPS 180-4, written in decimal). -/
def shaK : List Nat :=
  [1116352408, 1899447441, 3049323471, 3921009573, 961987163,
   1508970993, 2453635748, 2870763221, 3624381080, 310598401,
   607225278, 1426881987, 1925078388, 2162078206, 2614888103,
   3248222580, 3835390401, 4022224774, 264347078, 604807628,
   770255983, 1249150122, 1555081692, 1996064986, 2554220882,
   2821834349, 2952996808, 3210313671, 3336571891, 3584528711,
   113926993, 338241895, 666307205, 773529912, 1294757372,
   1396182291, 1695183700, 1986661051, 2177026350, 2456956037,
   2730485921, 2820302411, 3259730800, 3345764771, 3516065817,
   3600352804, 4094571909, 275423344, 430227734, 506948616,
   659060556, 883997877, 958139571, 1322822218, 1537002063,
   1747873779, 1955562222, 2024104815, 2227730452, 2361852424,
   2428436474, 2756734187, 3204031479, 3329325298]

/-- 8-byte big-endian encoding of a number (the length field of the padding). -/
def bigEndian8 (n : Nat) : List Nat :=
  [(n >>> 56) % 256, (n >>> 48) % 256, (n >>> 40) % 256, (n >>> 32) % 256,
   (n >>> 24) % 256, (n >>> 16) % 256, (n >>> 8) % 256, n % 256]

/-- SHA-256 padding: append 0x80, zero bytes to 56 mod 64, then the bit length. -/
def sha256pad (msg : List Nat) : List Nat :=
  let len := msg.length
  msg ++ 128 :: List.replicate ((119 - len % 64) % 64) 0 ++ bigEndian8 (8 * len)

/-- Group bytes into big-endian 32-bit words. -/
def toWords : List Nat → List Nat
  | a :: b :: c :: d :: rest => ((a <<< 24) ||| (b <<< 16) ||| (c <<< 8) ||| d) :: toWords rest
  | _ => []

/-- One step of the SHA-256 message-schedule extension. -/
def scheduleStep (acc : List Nat) (_i : Nat) : List Nat :=
  let n := acc.length
  let w15 := acc.getD (n - 15) 0
  let w2 := acc.getD (n - 2) 0
  let w16 := acc.getD (n - 16) 0
  let w7 := acc.getD (n - 7) 0
  let s0 := (rotr 7 w15) ^^^ (rotr 18 w15) ^^^ (w15 >>> 3)
  let s1 := (rotr 17 w2) ^^^ (rotr 19 w2) ^^^ (w2 >>> 10)
  acc ++ [(w16 + s0 + w7 + s1) % 4294967296]

/-- Extend 16 schedule words to 64. -/
def schedule (ws : List Nat) : List Nat := (List.range 48).foldl scheduleStep ws

/-- The eight SHA-256 working registers. -/
structure Hash8 where
  a : Nat
  b : Nat
  c : Nat
  d : Nat
  e : Nat
  f : Nat
  g : Nat
  h : Nat

/-- One SHA-256 compression round; `wk` is the (schedule word, round constant) pair. -/
def compStep (r : Hash8) (wk : Nat × Nat) : Hash8 :=
  let s1 := (rotr 6 r.e) ^^^ (rotr 11 r.e) ^^^ (rotr 25 r.e)
  let ch := (r.e &&& r.f) ^^^ ((4294967295 ^^^ r.e) &&& r.g)
  let t1 := (r.h + s1 + ch + wk.2 + wk.1) % 4294967296
  let s0 := (rotr 2 r.a) ^^^ (rotr 13 r.a) ^^^ (rotr 22 r.a)
  let mj := (r.a &&& r.b) ^^^ (r.a &&& r.c) ^^^ (r.b &&& r.c)
  let t2 := (s0 + mj) % 4294967296
  ⟨(t1 + t2) % 4294967296, r.a, r.b, r.c, (r.d + t1) % 4294967296, r.e, r.f, r.g⟩

/-- Compress one 64-byte block into the running hash (a list of 8 words). -/
def compress (hs : List Nat) (block : List Nat) : List Nat :=
  let ws := schedule (toWords block)
  let h0 := hs.getD 0 0
  let h1 := hs.getD 1 0
  let h2 := hs.getD 2 0
  let h3 := hs.getD 3 0
  let h4 := hs.getD 4 0
  let h5 := hs.getD 5 0
  let h6 := hs.getD 6 0
  let h7 := hs.getD 7 0
  let r := (ws.zip shaK).foldl compStep ⟨h0, h1, h2, h3, h4, h5, h6, h7⟩
  [(h0 + r.a) % 4294967296, (h1 + r.b) % 4294967296, (h2 + r.c) % 4294967296,
   (h3 + r.d) % 4294967296, (h4 + r.e) % 4294967296, (h5 + r.f) % 4294967296,
   (h6 + r.g) % 4294967296, (h7 + r.h) % 4294967296]

/-- Split a byte list into 64-byte chunks (fuel-driven recursion). -/
def chunksGo : Nat → List Nat → List (List Nat)
  | 0, _ => []
  | fuel + 1, l => if l.isEmpty then [] else l.take 64 :: chunksGo fuel (l.drop 64)

/-- Split a byte list into 64-byte chunks. -/
def chunks (l : List Nat) : List (List Nat) := chunksGo l.length l

/-- SHA-256 of a byte list, as the list of the 8 final 32-bit words. -/
def sha256 (msg : List Nat) : List Nat :=
  (chunks (sha256pad msg)).foldl compress
    [1779033703, 3144134277, 1013904242, 2773480762,
     1359893119, 2600822924, 528734635, 1541459225]

/-- Lowercase hex digit of a value < 16. -/
def hexDigit (n : Nat) : Char := if n < 10 then Char.ofNat (48 + n) else Char.ofNat (87 + n)

/-- 8 lowercase hex digits of one 32-bit word. -/
def word8hex (w : Nat) : List Char :=
  [hexDigit ((w >>> 28) % 16), hexDigit ((w >>> 24) % 16), hexDigit ((w >>> 20) % 16),
   hexDigit ((w >>> 16) % 16), hexDigit ((w >>> 12) % 16), hexDigit ((w >>> 8) % 16),
   hexDigit ((w >>> 4) % 16), hexDigit (w % 16)]

/-- Hex digits of a word list. -/
def hexOfWords : List Nat → List Char
  | [] => []
  | w :: ws => word8hex w ++ hexOfWords ws

/-- Hex digest string of a word list (Python `hexdigest`). -/
def toHexStr (ws : List Nat) : String := String.mk (hexOfWords ws)

/-- The pre-hash encoding of the four notice fields,
Python f-string `f"{title}|{buyer}|{deadline}|{url}"`. -/
def joinFields (title buyer deadline url : String) : String :=
  title ++ "|" ++ buyer ++ "|" ++ deadline ++ "|" ++ url

/-- `uid_hash` from src/main.py: SHA-256 hexdigest of the joined fields. -/
def uid_hash (title buyer deadline url : String) : String :=
  toHexStr (sha256 (strBytes (joinFields title buyer deadline url)))

/-! ### Keywords and relevance scoring -/

/-- Substring containment on character lists, Python `k in t`
(the empty list is contained in everything). -/
def containsSub (t k : List Char) : Bool :=
  match t with
  | [] => k.isEmpty
  | _ :: t' => k.isPrefixOf t || containsSub t' k

/-- ASCII lowercasing of a string, Python `text.lower()` restricted to ASCII
(all keywords and the scenario inputs are ASCII). -/
def lowerData (text : String) : List Char := text.data.map Char.toLower

/-- `relevant_score` from src/main.py: the number of configured keywords that
occur as substrings of the lowercased text.  `KEYWORDS` (a Python set of
lowercased strings) is passed explicitly as a duplicate-free list. -/
def relevant_score (kws : List String) (text : String) : Nat :=
  kws.countP (fun k => containsSub (lowerData text) k.data)

/-- Written from the claim wording, for comparison with `relevant_score`:
the number of distinct configured keywords occurring case-insensitively
(both sides lowercased) as substrings anywhere in the text. -/
def distinctKeywordOccCount (kws : List String) (text : String) : Nat :=
  (kws.dedup.filter (fun k => decide ((k.data.map Char.toLower) <:+: lowerData text))).length

/-! ### Data model: notices and the persisted state -/

/-- A scraped notice.  Python represents it as a string dict; fields are
`Option`s so that an absent dict key (`none`) is distinguished from an empty
string, mirroring `dict.get(key, default)`. -/
structure Notice where
  title : Option String
  buyer : Option String
  deadline : Option String
  url : Option String
  source : Option String
deriving DecidableEq

/-- The persisted state: a JSON object mapping fingerprints (and the reserved
heartbeat key) to epoch-second timestamps, modelled as an association list
with unique keys, in insertion order like a Python dict. -/
abbrev StateMap := List (String × Nat)

/-- Python `state[k] = v`: update the value at the existing key in place,
else append the new binding. -/
def dictInsert : StateMap → String → Nat → StateMap
  | [], k, v => [(k, v)]
  | a :: t, k, v => if a.1 = k then (k, v) :: t else a :: dictInsert t k v

/-- Python `state.get(k)`. -/
def dictLookup : StateMap → String → Option Nat
  | [], _ => none
  | a :: t, k => if a.1 = k then some a.2 else dictLookup t k

/-- The keys of the state, Python `state.keys()`. -/
abbrev keysOf (st : StateMap) : List String := st.map Prod.fst

/-- The fingerprint `run_cycle` computes for a candidate:
`uid_hash(n.get("title",""), n.get("buyer",""), n.get("deadline",""), n.get("url",""))`. -/
def uidOf (n : Notice) : String :=
  uid_hash (n.title.getD "") (n.buyer.getD "") (n.deadline.getD "") (n.url.getD "")

/-- The text `run_cycle` scores: `f"{n.get('title','')} {n.get('url','')}"`. -/
def blobOf (n : Notice) : String := (n.title.getD "") ++ " " ++ (n.url.getD "")

/-! ### The run cycle (`run_cycle` from src/main.py) -/

/-- Accumulator of the run cycle loop: collected new notices, `checked_count`,
and the in-memory state. -/
abbrev RunAcc := List Notice × Nat × StateMap

/-- The body of the inner `for n in items` loop of `run_cycle`: count the
candidate, skip it if its fingerprint was already seen at load time, skip it
if the relevance score of title-and-url is 0, else accept it and record its
fingerprint with the current time. -/
def stepItem (kws : List String) (seen : List String) (now : Nat)
    (acc : RunAcc) (n : Notice) : RunAcc :=
  if uidOf n ∈ seen then (acc.1, acc.2.1 + 1, acc.2.2)
  else if relevant_score kws (blobOf n) < 1 then (acc.1, acc.2.1 + 1, acc.2.2)
  else (acc.1 ++ [n], acc.2.1 + 1, dictInsert acc.2.2 (uidOf n) now)

/-- One adapter invocation at the orchestrator boundary: `items = []` followed
by `try: items = fetcher() except: pass-with-logging`.  A crashing adapter is
an `Except.error` and contributes the empty item list. -/
def itemsOfSource : Except Unit (List Notice) → List Notice
  | .error _ => []
  | .ok l => l

/-- All candidate items of a run, in adapter-then-page order. -/
def allItems (sources : List (Except Unit (List Notice))) : List Notice :=
  (sources.map itemsOfSource).flatten

/-- Eviction of entries older than 90 days:
`cutoff = now - 90*24*3600; trimmed = {k:v for k,v in state.items() if v >= cutoff}`. -/
def trimState (st : StateMap) (now : Nat) : StateMap :=
  st.filter (fun kv => decide (now - 90 * 24 * 3600 ≤ kv.2))

/-- `run_cycle` from src/main.py.  The adapters, the keyword set and the clock
are explicit parameters; the returned state is what `save_state` persists.
The `if len(trimmed) != len(state)` guard of the source is kept verbatim. -/
def run_cycle (kws : List String) (sources : List (Except Unit (List Notice)))
    (state0 : StateMap) (now : Nat) : List Notice × Nat × StateMap :=
  let seen := keysOf state0
  let r := sources.foldl (fun acc s => (itemsOfSource s).foldl (stepItem kws seen now) acc)
    ([], 0, state0)
  let trimmed := trimState r.2.2 now
  let st := if trimmed.length ≠ r.2.2.length then trimmed else r.2.2
  (r.1, r.2.1, st)

/-! ### The notifier (`format_email` from src/main.py) -/

/-- Python `"".join`. -/
def joinAll : List String → String
  | [] => ""
  | s :: rest => s ++ joinAll rest

/-- One `<li>` row of the digest body, verbatim from `format_email`
(`\x27` is the apostrophe of `href='...'`). -/
def rowOf (n : Notice) : String :=
  let title := n.title.getD "(no title)"
  let buyer := n.buyer.getD ""
  let dl := n.deadline.getD "N/A"
  let url := n.url.getD "#"
  let src := n.source.getD ""
  "<li><b>" ++ title ++ "</b>" ++ (if buyer ≠ "" then " — " ++ buyer else "")
    ++ " — deadline: " ++ dl ++ "<br>"
    ++ "<a href=\x27" ++ url ++ "\x27>" ++ url ++ "</a> <i>(" ++ src ++ ")</i></li>"

/-- `format_email` from src/main.py: subject and HTML body. -/
def format_email (notices : List Notice) (checked_count : Nat) : String × String :=
  if notices.length ≠ 0 then
    ("[ET Tenders] " ++ toString notices.length ++ " new software/ICT notices",
     "\n        <p>New Ethiopia software/ICT tenders detected (checked "
       ++ toString checked_count ++ " items):</p>\n        <ul>"
       ++ joinAll (notices.map rowOf)
       ++ "</ul>\n        <p style=\"color:#888\">You can tune keywords in config/keywords.txt</p>\n        ")
  else
    ("[ET Tenders] No new software/ICT notices",
     "\n        <p>No new matching tenders in the latest check (scanned "
       ++ toString checked_count
       ++ " items).</p>\n        <p style=\"color:#888\">This is a heartbeat. You can tune keywords in config/keywords.txt</p>\n        ")

/-- Substring relation on strings (for the digest-body claims). -/
def strInfix (a b : String) : Prop := a.data <:+: b.data

/-! ### The heartbeat (`maybe_send_heartbeat` from src/main.py) -/

/-- Timestamp of today-at-the-configured-hour: the source computes it with
`time.gmtime`/`time.mktime`, which under the UTC process locale the program
runs in (GitHub Actions) is the start of the current UTC day plus the hour.
Epoch days contain exactly 86400 seconds, so the day start is `now / 86400 * 86400`. -/
def targetToday (hbHour : Nat) (now : Nat) : Nat :=
  now / 86400 * 86400 + hbHour * 3600

/-- `maybe_send_heartbeat` from src/main.py: returns whether a heartbeat email
was sent, together with the persisted state.  `enable` is `HEARTBEAT_ENABLE`,
`hbHour` is `HEARTBEAT_HOUR_UTC`, `st` the loaded state, `now` the clock. -/
def maybe_send_heartbeat (enable : Bool) (hbHour : Nat) (st : StateMap) (now : Nat) :
    Bool × StateMap :=
  if enable then
    let last_hb := (dictLookup st "_last_heartbeat").getD 0
    let target := targetToday hbHour now
    if target ≤ now ∧ last_hb < target then (true, dictInsert st "_last_heartbeat" now)
    else (false, st)
  else (false, st)

/-! ### The HTTP fetcher (`http_get` from src/main.py) -/

/-- `RETRY_MAX` from src/main.py. -/
def RETRY_MAX : Nat := 3

/-- `RETRY_BASE_SLEEP` from src/main.py (as a rational, since jitter is a real
draw from [0,1)). -/
def RETRY_BASE_SLEEP : ℚ := 3

/-- The retry loop of `http_get`.  `outcome i` is what the i-th GET attempt
produces (`.ok` a response, `.error` a network error or non-2xx status, both of
which the source turns into an exception), `jitter i` the i-th `random.random()`
draw.  Returns the propagated result, the list of performed sleep durations in
order, and the number of attempts performed.  Faithful to the source, a failed
attempt sleeps before the loop either retries or falls through to `raise`. -/
def http_getAux {E R : Type} (outcome : Nat → Except E R) (jitter : Nat → ℚ)
    (attempt : Nat) (fuel : Nat) (sleeps : List ℚ) : Except E R × List ℚ × Nat :=
  match outcome attempt with
  | .ok r => (.ok r, sleeps, attempt)
  | .error e =>
    let sleeps' := sleeps ++ [RETRY_BASE_SLEEP * attempt + jitter attempt]
    match fuel with
    | 0 => (.error e, sleeps', attempt)
    | f + 1 => http_getAux outcome jitter (attempt + 1) f sleeps'

/-- `http_get` from src/main.py: `for attempt in range(1, RETRY_MAX + 1)`. -/
def http_get {E R : Type} (outcome : Nat → Except E R) (jitter : Nat → ℚ) :
    Except E R × List ℚ × Nat :=
  http_getAux outcome jitter 1 (RETRY_MAX - 1) []

/-! ### Source adapters -/

/-- One anchor element of the parsed page: its stripped text and its
optional `href` attribute. -/
structure Anchor where
  text : String
  href : Option String
deriving DecidableEq

/-- The shared anchor-scan of both adapters: for each anchor with non-empty
text and a truthy href, resolve the URL against the base and keep it iff the
anchor text alone scores at least 1; emitted notices have empty buyer and
deadline and the adapter's source tag.  `resolve` stands for `urllib.parse.urljoin`,
whose URL syntax is out of scope of the claims. -/
def adapterScan (kws : List String) (resolve : String → String → String)
    (base : String) (tag : String) (anchors : List Anchor) : List Notice :=
  anchors.filterMap (fun a =>
    if a.text = "" then none
    else
      match a.href with
      | none => none
      | some h =>
        if h = "" then none
        else if relevant_score kws a.text < 1 then none
        else some ⟨some a.text, some "", some "", some (resolve base h), some tag⟩)

/-- `fetch_ethiopian_tender_com` from src/main.py; `page` is the outcome of
`http_get` plus parsing (`.error` = fetch/parse failure, handled by the
adapter-local `except` returning `[]`). -/
def fetch_ethiopian_tender_com (kws : List String) (resolve : String → String → String)
    (page : Except Unit (List Anchor)) : List Notice :=
  match page with
  | .error _ => []
  | .ok anchors =>
    adapterScan kws resolve "https://www.ethiopiantender.com/" "EthiopianTender.com" anchors

/-- `fetch_globaltenders_et_sw` from src/main.py. -/
def fetch_globaltenders_et_sw (kws : List String) (resolve : String → String → String)
    (page : Except Unit (List Anchor)) : List Notice :=
  match page with
  | .error _ => []
  | .ok anchors =>
    adapterScan kws resolve "https://www.globaltenders.com/ethiopia/et-software-tenders"
      "GlobalTenders (ET Software)" anchors

/-! ### Concrete scenario inputs (from the spec's scenario section) -/

/-- The adapter-emitted candidate ("ERP System Tender","","","http://x/1"). -/
def n1ERP : Notice := ⟨some "ERP System Tender", some "", some "", some "http://x/1", none⟩

/-- The adapter-emitted candidate ("Office Chairs","","","http://x/2"). -/
def n2Chairs : Notice := ⟨some "Office Chairs", some "", some "", some "http://x/2", none⟩

/-! ### Helper lemmas: strings and substring containment -/

theorem strdata_append (a b : String) : (a ++ b).data = a.data ++ b.data := rfl

theorem lowerData_append (a b : String) : lowerData (a ++ b) = lowerData a ++ lowerData b := by
  simp [lowerData, strdata_append]

theorem containsSub_iff {t k : List Char} : containsSub t k = true ↔ k <:+: t := by
  induction t with
  | nil =>
    simp [containsSub, List.isEmpty_iff, List.infix_nil]
  | cons a t ih =>
    simp [containsSub, List.infix_cons_iff, ih, List.isPrefixOf_iff_prefix]

theorem containsSub_append {t s k : List Char} (h : containsSub t k = true) :
    containsSub (t ++ s) k = true := by
  rw [containsSub_iff] at h ⊢
  exact h.trans ⟨[], s, by simp⟩

/-! ### Helper lemmas: the state dictionary -/

theorem mem_dictInsert {st : StateMap} {k : String} {v : Nat} {kv : String × Nat}
    (h : kv ∈ dictInsert st k v) : kv ∈ st ∨ kv = (k, v) := by
  induction st with
  | nil =>
    right
    simpa [dictInsert] using h
  | cons a t ih =>
    by_cases hak : a.1 = k
    · simp only [dictInsert, if_pos hak, List.mem_cons] at h
      rcases h with h | h
      · exact Or.inr h
      · exact Or.inl (List.mem_cons_of_mem _ h)
    · simp only [dictInsert, if_neg hak, List.mem_cons] at h
      rcases h with h | h
      · exact Or.inl (by simp [h])
      · rcases ih h with h' | h'
        · exact Or.inl (List.mem_cons_of_mem _ h')
        · exact Or.inr h'

theorem self_mem_dictInsert (st : StateMap) (k : String) (v : Nat) :
    (k, v) ∈ dictInsert st k v := by
  induction st with
  | nil => simp [dictInsert]
  | cons a t ih =>
    by_cases hak : a.1 = k
    · simp [dictInsert, hak]
    · simp only [dictInsert, if_neg hak, List.mem_cons]
      exact Or.inr ih

theorem mem_dictInsert_of_ne {st : StateMap} {kv : String × Nat} {k : String} {v : Nat}
    (h : kv ∈ st) (hne : kv.1 ≠ k) : kv ∈ dictInsert st k v := by
  induction st with
  | nil => cases h
  | cons a t ih =>
    rcases List.mem_cons.mp h with h | h
    · by_cases hak : a.1 = k
      · exact absurd (h ▸ hak) hne
      · simp only [dictInsert, if_neg hak, List.mem_cons]
        exact Or.inl h
    · by_cases hak : a.1 = k
      · simp only [dictInsert, if_pos hak, List.mem_cons]
        exact Or.inr h
      · simp only [dictInsert, if_neg hak, List.mem_cons]
        exact Or.inr (ih h)

theorem mem_dictInsert_same_val {st : StateMap} {k0 k : String} {v : Nat}
    (h : (k0, v) ∈ st) : (k0, v) ∈ dictInsert st k v := by
  induction st with
  | nil => cases h
  | cons a t ih =>
    by_cases hak : a.1 = k
    · simp only [dictInsert, if_pos hak, List.mem_cons]
      rcases List.mem_cons.mp h with h | h
      · left
        have h1 : k0 = a.1 := by rw [← h]
        have h2 : a.2 = v := by rw [← h]
        simp [h1, hak]
      · exact Or.inr h
    · simp only [dictInsert, if_neg hak, List.mem_cons]
      rcases List.mem_cons.mp h with h | h
      · exact Or.inl h
      · exact Or.inr (ih h)

theorem key_self_mem_dictInsert (st : StateMap) (k : String) (v : Nat) :
    k ∈ keysOf (dictInsert st k v) :=
  List.mem_map_of_mem Prod.fst (self_mem_dictInsert st k v)

theorem keys_mem_dictInsert {st : StateMap} {k' k : String} {v : Nat}
    (h : k' ∈ keysOf st) : k' ∈ keysOf (dictInsert st k v) := by
  by_cases hk : k' = k
  · exact hk ▸ key_self_mem_dictInsert st k v
  · obtain ⟨kv, hkv, hfst⟩ := List.mem_map.mp h
    have hm : kv ∈ dictInsert st k v := mem_dictInsert_of_ne hkv (by rw [hfst]; exact hk)
    exact hfst ▸ List.mem_map_of_mem Prod.fst hm

theorem dictLookup_dictInsert_self (st : StateMap) (k : String) (v : Nat) :
    dictLookup (dictInsert st k v) k = some v := by
  induction st with
  | nil => simp [dictInsert, dictLookup]
  | cons a t ih =>
    by_cases hak : a.1 = k
    · simp [dictInsert, hak, dictLookup]
    · simp [dictInsert, hak, dictLookup, ih]

theorem nodup_keys_val_unique {st : StateMap} (hnd : (keysOf st).Nodup)
    {k : String} {v v' : Nat} (h1 : (k, v) ∈ st) (h2 : (k, v') ∈ st) : v = v' := by
  induction st with
  | nil => cases h1
  | cons a t ih =>
    simp only [keysOf, List.map_cons, List.nodup_cons] at hnd
    rcases List.mem_cons.mp h1 with h1 | h1 <;> rcases List.mem_cons.mp h2 with h2 | h2
    · rw [← h1] at h2; exact (Prod.mk.injEq _ _ _ _ ▸ h2).2.symm ▸ rfl
    · exfalso
      apply hnd.1
      have : k = a.1 := by rw [← h1]
      exact this ▸ (by simpa [keysOf] using List.mem_map_of_mem Prod.fst h2)
    · exfalso
      apply hnd.1
      have : k = a.1 := by rw [← h2]
      exact this ▸ (by simpa [keysOf] using List.mem_map_of_mem Prod.fst h1)
    · exact ih hnd.2 h1 h2

/-! ### Helper lemmas: the run-cycle fold -/

theorem stepItem_seen {kws seen now acc} {n : Notice} (h : uidOf n ∈ seen) :
    stepItem kws seen now acc n = (acc.1, acc.2.1 + 1, acc.2.2) := by
  simp [stepItem, h]

theorem stepItem_irrelevant {kws seen now acc} {n : Notice} (h : uidOf n ∉ seen)
    (h2 : relevant_score kws (blobOf n) < 1) :
    stepItem kws seen now acc n = (acc.1, acc.2.1 + 1, acc.2.2) := by
  simp [stepItem, h, h2]

theorem stepItem_accept {kws seen now acc} {n : Notice} (h : uidOf n ∉ seen)
    (h2 : ¬ relevant_score kws (blobOf n) < 1) :
    stepItem kws seen now acc n = (acc.1 ++ [n], acc.2.1 + 1, dictInsert acc.2.2 (uidOf n) now) := by
  simp [stepItem, h, h2]

theorem stepItem_checked (kws seen now acc) (n : Notice) :
    (stepItem kws seen now acc n).2.1 = acc.2.1 + 1 := by
  unfold stepItem
  split <;> [rfl; split <;> rfl]

theorem stepItem_keys_mono {kws seen now acc} {n : Notice} {k : String}
    (h : k ∈ keysOf acc.2.2) : k ∈ keysOf (stepItem kws seen now acc n).2.2 := by
  unfold stepItem
  split
  · exact h
  · split
    · exact h
    · exact keys_mem_dictInsert h

theorem foldl_checked (kws seen now) :
    ∀ (items : List Notice) (acc : RunAcc),
      (items.foldl (stepItem kws seen now) acc).2.1 = acc.2.1 + items.length := by
  intro items
  induction items with
  | nil => intro acc; simp
  | cons n t ih =>
    intro acc
    rw [List.foldl_cons, ih, stepItem_checked]
    simp [Nat.add_assoc, Nat.add_comm 1 t.length]

theorem foldl_keys_mono (kws seen now) :
    ∀ (items : List Notice) (acc : RunAcc) (k : String),
      k ∈ keysOf acc.2.2 → k ∈ keysOf (items.foldl (stepItem kws seen now) acc).2.2 := by
  intro items
  induction items with
  | nil => intro acc k h; simpa using h
  | cons n t ih =>
    intro acc k h
    rw [List.foldl_cons]
    exact ih _ _ (stepItem_keys_mono h)

theorem foldl_state_inv (kws seen now) (P : String × Nat → Prop)
    (hP : ∀ k, k ∉ seen → P (k, now)) :
    ∀ (items : List Notice) (acc : RunAcc),
      (∀ kv ∈ acc.2.2, P kv) →
      ∀ kv ∈ (items.foldl (stepItem kws seen now) acc).2.2, P kv := by
  intro items
  induction items with
  | nil => intro acc h; simpa using h
  | cons n t ih =>
    intro acc h
    rw [List.foldl_cons]
    apply ih
    by_cases h1 : uidOf n ∈ seen
    · rw [stepItem_seen h1]; exact h
    · by_cases h2 : relevant_score kws (blobOf n) < 1
      · rw [stepItem_irrelevant h1 h2]; exact h
      · rw [stepItem_accept h1 h2]
        intro kv hkv
        rcases mem_dictInsert hkv with hkv | hkv
        · exact h kv hkv
        · exact hkv ▸ hP _ h1

theorem foldl_keeps (kws seen now) (S : StateMap) (hS : ∀ kv ∈ S, kv.1 ∈ seen) :
    ∀ (items : List Notice) (acc : RunAcc),
      (∀ kv ∈ S, kv ∈ acc.2.2) →
      ∀ kv ∈ S, kv ∈ (items.foldl (stepItem kws seen now) acc).2.2 := by
  intro items
  induction items with
  | nil => intro acc h; simpa using h
  | cons n t ih =>
    intro acc h
    rw [List.foldl_cons]
    apply ih
    by_cases h1 : uidOf n ∈ seen
    · rw [stepItem_seen h1]; exact h
    · by_cases h2 : relevant_score kws (blobOf n) < 1
      · rw [stepItem_irrelevant h1 h2]; exact h
      · rw [stepItem_accept h1 h2]
        intro kv hkv
        exact mem_dictInsert_of_ne (h kv hkv) (fun he => h1 (he ▸ hS kv hkv))

theorem foldl_notices_entries (kws seen now) :
    ∀ (items : List Notice) (acc : RunAcc),
      (∀ n ∈ acc.1, (uidOf n, now) ∈ acc.2.2) →
      ∀ n ∈ (items.foldl (stepItem kws seen now) acc).1,
        (uidOf n, now) ∈ (items.foldl (stepItem kws seen now) acc).2.2 := by
  intro items
  induction items with
  | nil => intro acc h; simpa using h
  | cons n t ih =>
    intro acc h
    rw [List.foldl_cons]
    apply ih
    by_cases h1 : uidOf n ∈ seen
    · rw [stepItem_seen h1]; exact h
    · by_cases h2 : relevant_score kws (blobOf n) < 1
      · rw [stepItem_irrelevant h1 h2]; exact h
      · rw [stepItem_accept h1 h2]
        intro m hm
        rcases List.mem_append.mp hm with hm | hm
        · exact mem_dictInsert_same_val (h m hm)
        · rw [List.mem_singleton.mp hm]
          exact self_mem_dictInsert _ _ _

theorem foldl_covered (kws seen now) :
    ∀ (items : List Notice) (acc : RunAcc),
      (∀ k ∈ seen, k ∈ keysOf acc.2.2) →
      ∀ n ∈ items,
        uidOf n ∈ keysOf (items.foldl (stepItem kws seen now) acc).2.2 ∨
          relevant_score kws (blobOf n) < 1 := by
  intro items
  induction items with
  | nil => intro acc _ n hn; cases hn
  | cons m t ih =>
    intro acc hseen n hn
    rw [List.foldl_cons]
    have hseen' : ∀ k ∈ seen, k ∈ keysOf (stepItem kws seen now acc m).2.2 :=
      fun k hk => stepItem_keys_mono (hseen k hk)
    rcases List.mem_cons.mp hn with rfl | hn
    · by_cases h1 : uidOf n ∈ seen
      · exact Or.inl (foldl_keys_mono kws seen now t _ _ (hseen' _ h1))
      · by_cases h2 : relevant_score kws (blobOf n) < 1
        · exact Or.inr h2
        · left
          apply foldl_keys_mono kws seen now t _ _
          rw [stepItem_accept h1 h2]
          exact key_self_mem_dictInsert _ _ _
    · exact ih _ hseen' n hn

theorem foldl_skip_all (kws seen now) :
    ∀ (items : List Notice) (ns : List Notice) (c : Nat) (st : StateMap),
      (∀ n ∈ items, uidOf n ∈ seen ∨ relevant_score kws (blobOf n) < 1) →
      items.foldl (stepItem kws seen now) (ns, c, st) = (ns, c + items.length, st) := by
  intro items
  induction items with
  | nil => intro ns c st _; simp
  | cons n t ih =>
    intro ns c st h
    rw [List.foldl_cons]
    have hstep : stepItem kws seen now (ns, c, st) n = (ns, c + 1, st) := by
      rcases h n (List.mem_cons_self n t) with h1 | h1
      · exact stepItem_seen h1
      · by_cases h2 : uidOf n ∈ seen
        · exact stepItem_seen h2
        · exact stepItem_irrelevant h2 h1
    rw [hstep, ih _ _ _ (fun m hm => h m (List.mem_cons_of_mem n hm))]
    simp [Nat.add_assoc, Nat.add_comm 1 t.length]

/-! ### Helper lemmas: trimming and the run-cycle structure -/

theorem mem_trimState {st : StateMap} {now : Nat} {kv : String × Nat}
    (h : kv ∈ trimState st now) : kv ∈ st ∧ now - 90 * 24 * 3600 ≤ kv.2 := by
  have := List.mem_filter.mp h
  exact ⟨this.1, by simpa using this.2⟩

theorem trimState_mem {st : StateMap} {now : Nat} {kv : String × Nat}
    (h : kv ∈ st) (h2 : now - 90 * 24 * 3600 ≤ kv.2) : kv ∈ trimState st now :=
  List.mem_filter.mpr ⟨h, by simpa using h2⟩

theorem trimState_eq_self {st : StateMap} {now : Nat}
    (h : ∀ kv ∈ st, now - 90 * 24 * 3600 ≤ kv.2) : trimState st now = st :=
  List.filter_eq_self.mpr (fun kv hkv => by simpa using h kv hkv)

theorem trim_wrapper (st : StateMap) (now : Nat) :
    (if (trimState st now).length ≠ st.length then trimState st now else st) =
      trimState st now := by
  by_cases h : (trimState st now).length = st.length
  · rw [if_neg (fun hne => hne h)]
    exact (List.Sublist.eq_of_length (List.filter_sublist st) h).symm
  · rw [if_pos h]

theorem run_cycle_eq (kws : List String) (srcs : List (Except Unit (List Notice)))
    (st0 : StateMap) (now : Nat) :
    run_cycle kws srcs st0 now =
      (((allItems srcs).foldl (stepItem kws (keysOf st0) now) ([], 0, st0)).1,
       ((allItems srcs).foldl (stepItem kws (keysOf st0) now) ([], 0, st0)).2.1,
       trimState ((allItems srcs).foldl (stepItem kws (keysOf st0) now) ([], 0, st0)).2.2 now) := by
  have hfold :
      srcs.foldl (fun acc s => (itemsOfSource s).foldl (stepItem kws (keysOf st0) now) acc)
        ([], 0, st0) =
      (allItems srcs).foldl (stepItem kws (keysOf st0) now) ([], 0, st0) := by
    rw [allItems, List.foldl_flatten, List.foldl_map]
  rw [run_cycle, hfold, trim_wrapper]

/-! ### Claim C6: adapter failure isolation -/

/-- C6: a source adapter that raises is caught at the orchestrator boundary and
contributes zero notices; the run is exactly the run without that adapter, so all
other adapters still run, their accepted notices are returned, and checked_count
counts only the successful adapters' items. -/
theorem run_cycle_adapter_isolation (kws : List String)
    (xs ys : List (Except Unit (List Notice))) (st0 : StateMap) (now : Nat) :
    run_cycle kws (xs ++ Except.error () :: ys) st0 now = run_cycle kws (xs ++ ys) st0 now := by
  have hitems : allItems (xs ++ Except.error () :: ys) = allItems (xs ++ ys) := by
    simp [allItems, itemsOfSource]
  rw [run_cycle_eq, run_cycle_eq, hitems]

/-! ### Claim C4: the 90-day retention window -/

/-- C4: after any `run_cycle`, every persisted entry (the reserved heartbeat key
included, since the code treats all keys uniformly) has a timestamp at least
`now - 90 days`, i.e. entries older than 90 days are absent; and every initial
entry at least that new is retained. -/
theorem run_cycle_retention (kws : List String) (srcs : List (Except Unit (List Notice)))
    (st0 : StateMap) (now : Nat) :
    (∀ kv ∈ (run_cycle kws srcs st0 now).2.2, now - 90 * 24 * 3600 ≤ kv.2) ∧
    (∀ kv ∈ st0, now - 90 * 24 * 3600 ≤ kv.2 → kv ∈ (run_cycle kws srcs st0 now).2.2) := by
  have hrc := run_cycle_eq kws srcs st0 now
  constructor
  · intro kv hkv
    rw [hrc] at hkv
    exact (mem_trimState hkv).2
  · intro kv hkv hle
    rw [hrc]
    show kv ∈ trimState _ now
    refine trimState_mem ?_ hle
    exact foldl_keeps kws (keysOf st0) now st0
      (fun kv hkv => List.mem_map_of_mem Prod.fst hkv) (allItems srcs) ([], 0, st0)
      (fun kv h => h) kv hkv

/-- Witness for C4 at a concrete input: a fresh-enough entry survives the cycle. -/
theorem run_cycle_retention_witness :
    ("k", 1700000000) ∈ (run_cycle [] [] [("k", 1700000000)] 1700000000).2.2 :=
  (run_cycle_retention [] [] [("k", 1700000000)] 1700000000).2 ("k", 1700000000)
    (by decide) (by decide)

/-! ### Claim C9: the state-frame property -/

/-- C9: the persisted state maps fingerprints to first-seen timestamps:
`run_cycle` never modifies the timestamp of an entry already present at load
time (the reserved heartbeat key included); every persisted entry is either an
unchanged initial entry or a fresh insertion carrying the current time under a
key that was not seen before; and each newly accepted notice has its
fingerprint recorded with the current time. -/
theorem run_cycle_state_frame (kws : List String) (srcs : List (Except Unit (List Notice)))
    (st0 : StateMap) (now : Nat) (hnd : (keysOf st0).Nodup) :
    (∀ k v v', (k, v) ∈ st0 → (k, v') ∈ (run_cycle kws srcs st0 now).2.2 → v' = v) ∧
    (∀ kv ∈ (run_cycle kws srcs st0 now).2.2,
      kv ∈ st0 ∨ (kv.2 = now ∧ kv.1 ∉ keysOf st0)) ∧
    (∀ n ∈ (run_cycle kws srcs st0 now).1,
      (uidOf n, now) ∈ (run_cycle kws srcs st0 now).2.2) := by
  have hrc := run_cycle_eq kws srcs st0 now
  have hchar : ∀ kv ∈ ((allItems srcs).foldl (stepItem kws (keysOf st0) now) ([], 0, st0)).2.2,
      kv ∈ st0 ∨ (kv.2 = now ∧ kv.1 ∉ keysOf st0) :=
    foldl_state_inv kws (keysOf st0) now _ (fun k hk => Or.inr ⟨rfl, hk⟩) _ _
      (fun kv h => Or.inl h)
  refine ⟨?_, ?_, ?_⟩
  · intro k v v' h0 hF
    rw [hrc] at hF
    rcases hchar _ (mem_trimState hF).1 with h | h
    · exact nodup_keys_val_unique hnd h h0
    · exact absurd (List.mem_map_of_mem Prod.fst h0) h.2
  · intro kv hkv
    rw [hrc] at hkv
    exact hchar _ (mem_trimState hkv).1
  · intro n hn
    rw [hrc] at hn ⊢
    have hm := foldl_notices_entries kws (keysOf st0) now (allItems srcs) ([], 0, st0)
      (fun m hm => absurd hm (List.not_mem_nil m)) n hn
    exact trimState_mem hm (Nat.sub_le _ _)

/-- Witness for C9 at a concrete input: the pre-existing entry keeps its timestamp. -/
theorem run_cycle_state_frame_witness : (5 : Nat) = 5 :=
  (run_cycle_state_frame [] [] [("k", 5)] 99 (by decide)).1 "k" 5 5 (by decide) (by decide)

/-! ### Claim C1: dedup idempotence (corrected) -/

/-- C1 counterexample to the universal statement: with identical adapter
outputs and no time advance, if the initial state already holds the candidate's
fingerprint under an expired timestamp (here 0), the first run skips the
candidate as seen and then evicts the entry, so the second run accepts the very
same candidate: it yields one new notice, not zero. -/
theorem run_cycle_dedup_idempotent_cex :
    (run_cycle ["erp"] [Except.ok [n1ERP]]
      ((run_cycle ["erp"] [Except.ok [n1ERP]]
        [(uid_hash "ERP System Tender" "" "" "http://x/1", 0)] 1700000000).2.2) 1700000000).1
      = [n1ERP] ∧
    (run_cycle ["erp"] [Except.ok [n1ERP]]
      [(uid_hash "ERP System Tender" "" "" "http://x/1", 0)] 1700000000).1 = [] :=
  ⟨by decide, by decide⟩

/-- C1 (amended): for consecutive `run_cycle` executions with identical adapter
outputs and no time advance, the second run yields zero new notices and the same
checked_count, provided every initial state entry is within the 90-day retention
window (in particular from an empty initial state); and the concrete scenario:
with keywords {"erp","web"} and candidates ("ERP System Tender","","","http://x/1"),
("Office Chairs","","","http://x/2"), the first run from empty state returns
exactly the ERP notice with checked_count 2, and the second run returns zero
new notices with checked_count 2. -/
theorem run_cycle_dedup_idempotent :
    (∀ (kws : List String) (srcs : List (Except Unit (List Notice))) (st0 : StateMap) (now : Nat),
      (∀ kv ∈ st0, now - 90 * 24 * 3600 ≤ kv.2) →
      (run_cycle kws srcs ((run_cycle kws srcs st0 now).2.2) now).1 = [] ∧
      (run_cycle kws srcs ((run_cycle kws srcs st0 now).2.2) now).2.1 =
        (run_cycle kws srcs st0 now).2.1) ∧
    ((run_cycle ["erp", "web"] [Except.ok [n1ERP, n2Chairs]] [] 1700000000).1 = [n1ERP] ∧
     (run_cycle ["erp", "web"] [Except.ok [n1ERP, n2Chairs]] [] 1700000000).2.1 = 2 ∧
     (run_cycle ["erp", "web"] [Except.ok [n1ERP, n2Chairs]]
       ((run_cycle ["erp", "web"] [Except.ok [n1ERP, n2Chairs]] [] 1700000000).2.2)
       1700000000).1 = [] ∧
     (run_cycle ["erp", "web"] [Except.ok [n1ERP, n2Chairs]]
       ((run_cycle ["erp", "web"] [Except.ok [n1ERP, n2Chairs]] [] 1700000000).2.2)
       1700000000).2.1 = 2) := by
  constructor
  · intro kws srcs st0 now h0
    have hrc1 := run_cycle_eq kws srcs st0 now
    have hvals : ∀ kv ∈ ((allItems srcs).foldl (stepItem kws (keysOf st0) now)
        ([], 0, st0)).2.2, now - 90 * 24 * 3600 ≤ kv.2 :=
      foldl_state_inv kws (keysOf st0) now (fun kv => now - 90 * 24 * 3600 ≤ kv.2)
        (fun k _ => Nat.sub_le now _) (allItems srcs) ([], 0, st0) h0
    have htrim : trimState ((allItems srcs).foldl (stepItem kws (keysOf st0) now)
        ([], 0, st0)).2.2 now =
        ((allItems srcs).foldl (stepItem kws (keysOf st0) now) ([], 0, st0)).2.2 :=
      trimState_eq_self hvals
    have hst1 : (run_cycle kws srcs st0 now).2.2 =
        ((allItems srcs).foldl (stepItem kws (keysOf st0) now) ([], 0, st0)).2.2 := by
      rw [hrc1]
      exact htrim
    have hcov : ∀ n ∈ allItems srcs,
        uidOf n ∈ keysOf ((allItems srcs).foldl (stepItem kws (keysOf st0) now)
          ([], 0, st0)).2.2 ∨ relevant_score kws (blobOf n) < 1 :=
      foldl_covered kws (keysOf st0) now (allItems srcs) ([], 0, st0) (fun k hk => hk)
    have hskip := foldl_skip_all kws
      (keysOf ((allItems srcs).foldl (stepItem kws (keysOf st0) now) ([], 0, st0)).2.2) now
      (allItems srcs) [] 0
      ((allItems srcs).foldl (stepItem kws (keysOf st0) now) ([], 0, st0)).2.2 hcov
    constructor
    · rw [hst1, run_cycle_eq, hskip]
    · rw [hst1, run_cycle_eq, hrc1, hskip, foldl_checked]
  · exact ⟨by decide, by decide, by decide, by decide⟩

/-- Witness for C1 (amended) at a concrete input: from an in-window initial
state, the second identical run yields no new notices. -/
theorem run_cycle_dedup_idempotent_witness :
    (run_cycle ["erp"] [Except.ok [n1ERP]]
      ((run_cycle ["erp"] [Except.ok [n1ERP]] [("k", 1700000000)] 1700000000).2.2)
      1700000000).1 = [] :=
  (run_cycle_dedup_idempotent.1 ["erp"] [Except.ok [n1ERP]] [("k", 1700000000)] 1700000000
    (by decide)).1

/-! ### Claim C3: the heartbeat runs at most once per UTC day -/

/-- C3: with the heartbeat enabled, `maybe_send_heartbeat` sends (returning
true and recording the current timestamp under the reserved key) exactly when
the current time has passed today's target timestamp at the configured UTC
hour and the last recorded heartbeat timestamp precedes that target; a
non-sending call leaves the state unchanged; and after a sending call, every
further call within the same UTC calendar day does not send — so at most one
heartbeat is sent per UTC day across repeated calls. -/
theorem maybe_send_heartbeat_once_per_day :
    (∀ (hbHour : Nat) (st : StateMap) (now : Nat),
      ((maybe_send_heartbeat true hbHour st now).1 = true ↔
        (targetToday hbHour now ≤ now ∧
          (dictLookup st "_last_heartbeat").getD 0 < targetToday hbHour now)) ∧
      ((maybe_send_heartbeat true hbHour st now).1 = true →
        dictLookup (maybe_send_heartbeat true hbHour st now).2 "_last_heartbeat" = some now) ∧
      ((maybe_send_heartbeat true hbHour st now).1 = false →
        (maybe_send_heartbeat true hbHour st now).2 = st)) ∧
    (∀ (hbHour : Nat) (st : StateMap) (now1 now2 : Nat),
      (maybe_send_heartbeat true hbHour st now1).1 = true →
      now1 / 86400 = now2 / 86400 →
      (maybe_send_heartbeat true hbHour
        ((maybe_send_heartbeat true hbHour st now1).2) now2).1 = false) := by
  have key : ∀ (hbHour : Nat) (st : StateMap) (now : Nat),
      maybe_send_heartbeat true hbHour st now =
        if targetToday hbHour now ≤ now ∧
            (dictLookup st "_last_heartbeat").getD 0 < targetToday hbHour now
        then (true, dictInsert st "_last_heartbeat" now) else (false, st) := by
    intro hbHour st now
    rfl
  constructor
  · intro hbHour st now
    refine ⟨?_, ?_, ?_⟩
    · rw [key]
      by_cases hc : targetToday hbHour now ≤ now ∧
          (dictLookup st "_last_heartbeat").getD 0 < targetToday hbHour now
      · simp [hc]
      · simp [if_neg hc, hc]
    · intro h
      rw [key] at h ⊢
      by_cases hc : targetToday hbHour now ≤ now ∧
          (dictLookup st "_last_heartbeat").getD 0 < targetToday hbHour now
      · rw [if_pos hc]
        exact dictLookup_dictInsert_self st _ now
      · rw [if_neg hc] at h
        cases h
    · intro h
      rw [key] at h ⊢
      by_cases hc : targetToday hbHour now ≤ now ∧
          (dictLookup st "_last_heartbeat").getD 0 < targetToday hbHour now
      · rw [if_pos hc] at h
        cases h
      · rw [if_neg hc]
  · intro hbHour st now1 now2 hsent hday
    have hc1 : targetToday hbHour now1 ≤ now1 ∧
        (dictLookup st "_last_heartbeat").getD 0 < targetToday hbHour now1 := by
      by_contra hc
      rw [key, if_neg hc] at hsent
      cases hsent
    have htarg : targetToday hbHour now2 = targetToday hbHour now1 := by
      unfold targetToday
      rw [hday]
    have hstate : (maybe_send_heartbeat true hbHour st now1).2 =
        dictInsert st "_last_heartbeat" now1 := by
      rw [key, if_pos hc1]
    rw [hstate, key, dictLookup_dictInsert_self]
    rw [if_neg]
    intro hc2
    rw [htarg] at hc2
    have hlt : now1 < targetToday hbHour now1 := by simpa using hc2.2
    exact absurd hlt (not_lt.mpr hc1.1)

/-- Witness for C3 at a concrete input: a send at 50000s of day 0 (target hour
6, target 21600) suppresses a second send at 60000s of the same day. -/
theorem maybe_send_heartbeat_once_per_day_witness :
    (maybe_send_heartbeat true 6 ((maybe_send_heartbeat true 6 [] 50000).2) 60000).1 = false :=
  maybe_send_heartbeat_once_per_day.2 6 [] 50000 60000 (by decide) (by decide)

/-! ### Claim C5: relevance scoring -/

/-- C5: `relevant_score text` equals the number of distinct configured
keywords occurring case-insensitively as substrings anywhere in the text (for
a duplicate-free, lowercased keyword set, which is what `load_keywords`
produces); hence it is 0 iff the text contains no keyword and at least 1 iff
some keyword occurs; and the run cycle accepts a candidate (appends it to the
result list) iff it is unseen and `relevant_score (title ++ " " ++ url) ≥ 1`. -/
theorem relevant_score_spec :
    (∀ (kws : List String) (text : String), kws.Nodup →
      (∀ k ∈ kws, k.data.map Char.toLower = k.data) →
      relevant_score kws text = distinctKeywordOccCount kws text) ∧
    (∀ (kws : List String) (text : String),
      (relevant_score kws text = 0 ↔ ∀ k ∈ kws, ¬ (k.data <:+: lowerData text))) ∧
    (∀ (kws : List String) (text : String),
      (1 ≤ relevant_score kws text ↔ ∃ k ∈ kws, k.data <:+: lowerData text)) ∧
    (∀ (kws seen : List String) (now : Nat) (acc : RunAcc) (n : Notice),
      (stepItem kws seen now acc n).1 =
        if uidOf n ∈ seen then acc.1
        else if 1 ≤ relevant_score kws (blobOf n) then acc.1 ++ [n] else acc.1) := by
  refine ⟨?_, ?_, ?_, ?_⟩
  · intro kws text hnd hlow
    unfold relevant_score distinctKeywordOccCount
    rw [List.dedup_eq_self.mpr hnd, List.countP_eq_length_filter]
    refine congrArg List.length (List.filter_congr ?_)
    intro k hk
    rw [hlow k hk]
    exact Bool.coe_iff_coe.mp (by simp [containsSub_iff])
  · intro kws text
    simp only [relevant_score, List.countP_eq_zero, containsSub_iff]
  · intro kws text
    have h := List.countP_pos_iff
      (p := fun k => containsSub (lowerData text) k.data) (l := kws)
    simp only [containsSub_iff] at h
    exact h
  · intro kws seen now acc n
    by_cases h1 : uidOf n ∈ seen
    · rw [stepItem_seen h1, if_pos h1]
    · rw [if_neg h1]
      by_cases h2 : relevant_score kws (blobOf n) < 1
      · rw [stepItem_irrelevant h1 h2, if_neg (by omega)]
      · rw [stepItem_accept h1 h2, if_pos (by omega)]

/-- Witness for C5 at a concrete input: the code's score coincides with the
distinct-keyword count for the scenario keywords, on text matching case-insensitively. -/
theorem relevant_score_spec_witness :
    relevant_score ["erp", "web"] "ERP System Tender" =
      distinctKeywordOccCount ["erp", "web"] "ERP System Tender" :=
  relevant_score_spec.1 ["erp", "web"] "ERP System Tender" (by decide) (by decide)

/-! ### Claim C10: adapters score the anchor text alone before emitting -/

theorem relevant_score_append (kws : List String) (t s : String) :
    relevant_score kws t ≤ relevant_score kws (t ++ s) := by
  unfold relevant_score
  apply List.countP_mono_left
  intro k _ h
  rw [lowerData_append]
  exact containsSub_append h

theorem mem_adapterScan {kws : List String} {resolve : String → String → String}
    {base tag : String} {anchors : List Anchor} {n : Notice}
    (h : n ∈ adapterScan kws resolve base tag anchors) :
    1 ≤ relevant_score kws (n.title.getD "") := by
  unfold adapterScan at h
  obtain ⟨a, _, hfa⟩ := List.mem_filterMap.mp h
  by_cases ht : a.text = ""
  · rw [if_pos ht] at hfa
    cases hfa
  · rw [if_neg ht] at hfa
    cases hha : a.href with
    | none => simp [hha] at hfa
    | some hr =>
      simp only [hha] at hfa
      by_cases hhr : hr = ""
      · rw [if_pos hhr] at hfa
        cases hfa
      · rw [if_neg hhr] at hfa
        by_cases hsc : relevant_score kws a.text < 1
        · rw [if_pos hsc] at hfa
          cases hfa
        · rw [if_neg hsc] at hfa
          have hn := Option.some_inj.mp hfa
          rw [← hn]
          simpa using Nat.not_lt.mp hsc

/-- C10: every notice emitted by either source adapter has
`relevant_score title ≥ 1` (the adapters score the anchor text alone before
emitting), and consequently the orchestrator's relevance check on
`title ++ " " ++ url` is always already satisfied by the title alone. -/
theorem adapter_title_relevance (kws : List String) (resolve : String → String → String)
    (page : Except Unit (List Anchor)) (n : Notice)
    (h : n ∈ fetch_ethiopian_tender_com kws resolve page ∨
         n ∈ fetch_globaltenders_et_sw kws resolve page) :
    1 ≤ relevant_score kws (n.title.getD "") ∧
    1 ≤ relevant_score kws ((n.title.getD "") ++ " " ++ (n.url.getD "")) := by
  have htitle : 1 ≤ relevant_score kws (n.title.getD "") := by
    rcases h with h | h
    · unfold fetch_ethiopian_tender_com at h
      match page with
      | .error _ => cases h
      | .ok anchors => exact mem_adapterScan h
    · unfold fetch_globaltenders_et_sw at h
      match page with
      | .error _ => cases h
      | .ok anchors => exact mem_adapterScan h
  refine ⟨htitle, le_trans htitle ?_⟩
  calc relevant_score kws (n.title.getD "")
      ≤ relevant_score kws ((n.title.getD "") ++ " ") := relevant_score_append kws _ " "
    _ ≤ relevant_score kws ((n.title.getD "") ++ " " ++ (n.url.getD "")) :=
        relevant_score_append kws _ _

/-- Witness for C10 at a concrete input: a notice emitted for an anchor whose
text contains "erp" satisfies both relevance facts. -/
theorem adapter_title_relevance_witness :
    1 ≤ relevant_score ["erp"]
        ((⟨some "ERP thing", some "", some "",
           some "u", some "EthiopianTender.com"⟩ : Notice).title.getD "") ∧
    1 ≤ relevant_score ["erp"]
        (((⟨some "ERP thing", some "", some "",
           some "u", some "EthiopianTender.com"⟩ : Notice).title.getD "") ++ " " ++
         ((⟨some "ERP thing", some "", some "",
           some "u", some "EthiopianTender.com"⟩ : Notice).url.getD "")) :=
  adapter_title_relevance ["erp"] (fun _ h => h) (Except.ok [⟨"ERP thing", some "u"⟩])
    ⟨some "ERP thing", some "", some "", some "u", some "EthiopianTender.com"⟩
    (Or.inl (by decide))

/-! ### Claim C8: digest formatting -/

theorem strInfix_refl (a : String) : strInfix a a := ⟨[], [], by simp⟩

theorem strInfix_appendL {a c : String} (b : String) (h : strInfix a c) :
    strInfix a (b ++ c) := by
  obtain ⟨x, y, hxy⟩ := h
  exact ⟨b.data ++ x, y, by simp [strdata_append, hxy]⟩

theorem strInfix_appendR {a b : String} (c : String) (h : strInfix a b) :
    strInfix a (b ++ c) := by
  obtain ⟨x, y, hxy⟩ := h
  exact ⟨x, y ++ c.data, by simp [strdata_append, ← hxy]⟩

theorem joinAll_decomp (f : Notice → String) :
    ∀ (l : List Notice) (n : Notice), n ∈ l →
      ∃ x y : List Char, (joinAll (l.map f)).data = x ++ (f n).data ++ y := by
  intro l
  induction l with
  | nil => intro n hn; cases hn
  | cons a t ih =>
    intro n hn
    rcases List.mem_cons.mp hn with rfl | hn
    · exact ⟨[], (joinAll (t.map f)).data, by simp [joinAll, strdata_append]⟩
    · obtain ⟨x, y, hxy⟩ := ih n hn
      exact ⟨(f a).data ++ x, y, by simp [joinAll, strdata_append, hxy]⟩

theorem strInfix_join_part {pre post : String} (f : Notice → String)
    {l : List Notice} {n : Notice} (hn : n ∈ l) :
    strInfix (f n) (pre ++ joinAll (l.map f) ++ post) := by
  obtain ⟨x, y, hxy⟩ := joinAll_decomp f l n hn
  exact ⟨pre.data ++ x, y ++ post.data, by simp [strdata_append, hxy]⟩

/-- C8: for a non-empty notice list, `format_email` returns the subject line
encoding the notice count, and an HTML body that contains each notice's row and
the static footer; and each row lists the notice's title, its buyer when
non-empty, its deadline (the "N/A" default when the deadline key is absent),
its link and its source tag. -/
theorem format_email_spec (notices : List Notice) (checked_count : Nat)
    (hne : notices ≠ []) :
    (format_email notices checked_count).1 =
      "[ET Tenders] " ++ toString notices.length ++ " new software/ICT notices" ∧
    (∀ n ∈ notices, strInfix (rowOf n) (format_email notices checked_count).2) ∧
    strInfix "You can tune keywords in config/keywords.txt"
      (format_email notices checked_count).2 ∧
    (∀ n : Notice, strInfix ("<li><b>" ++ n.title.getD "(no title)" ++ "</b>") (rowOf n)) ∧
    (∀ n : Notice, n.buyer.getD "" ≠ "" →
      strInfix (" — " ++ n.buyer.getD "") (rowOf n)) ∧
    (∀ n : Notice, n.deadline = none → strInfix " — deadline: N/A<br>" (rowOf n)) ∧
    (∀ n : Notice, strInfix ("<a href=\x27" ++ n.url.getD "#" ++ "\x27>") (rowOf n)) ∧
    (∀ n : Notice, strInfix ("</a> <i>(" ++ n.source.getD "" ++ ")</i></li>") (rowOf n)) := by
  have hcond : notices.length ≠ 0 := fun h => hne (List.length_eq_zero.mp h)
  refine ⟨?_, ?_, ?_, ?_, ?_, ?_, ?_, ?_⟩
  · rw [format_email, if_pos hcond]
  · intro n hn
    rw [format_email, if_pos hcond]
    exact strInfix_join_part rowOf hn
  · rw [format_email, if_pos hcond]
    refine strInfix_appendL _ ?_
    exact ⟨("</ul>\n        <p style=\"color:#888\">" : String).data,
      ("</p>\n        " : String).data, by decide⟩
  · intro n
    simp only [rowOf]
    exact strInfix_appendR _ (strInfix_appendR _ (strInfix_appendR _ (strInfix_appendR _
      (strInfix_appendR _ (strInfix_appendR _ (strInfix_appendR _ (strInfix_appendR _
      (strInfix_appendR _ (strInfix_appendR _ (strInfix_appendR _ (strInfix_refl _)))))))))))
  · intro n hb
    simp only [rowOf, if_pos hb]
    exact strInfix_appendR _ (strInfix_appendR _ (strInfix_appendR _ (strInfix_appendR _
      (strInfix_appendR _ (strInfix_appendR _ (strInfix_appendR _ (strInfix_appendR _
      (strInfix_appendR _ (strInfix_appendR _ (strInfix_appendL _ (strInfix_refl _)))))))))))
  · intro n hd
    have h1 : n.deadline.getD "N/A" = "N/A" := by rw [hd]; rfl
    have h2 : ∀ X : String, ((X ++ " — deadline: ") ++ "N/A") ++ "<br>" =
        X ++ " — deadline: N/A<br>" := by
      intro X
      rw [String.append_assoc, String.append_assoc]
      congr 1
    simp only [rowOf, h1]
    rw [h2]
    exact strInfix_appendR _ (strInfix_appendR _ (strInfix_appendR _ (strInfix_appendR _
      (strInfix_appendR _ (strInfix_appendR _ (strInfix_appendR _
      (strInfix_appendL _ (strInfix_refl _))))))))
  · intro n
    have h3 : ∀ X : String, ((X ++ "<a href=\x27") ++ n.url.getD "#") ++ "\x27>" =
        X ++ ("<a href=\x27" ++ n.url.getD "#" ++ "\x27>") := by
      intro X
      simp [String.append_assoc]
    simp only [rowOf]
    rw [h3]
    exact strInfix_appendR _ (strInfix_appendR _ (strInfix_appendR _ (strInfix_appendR _
      (strInfix_appendL _ (strInfix_refl _)))))
  · intro n
    have h4 : ∀ X : String, ((X ++ "</a> <i>(") ++ n.source.getD "") ++ ")</i></li>" =
        X ++ ("</a> <i>(" ++ n.source.getD "" ++ ")</i></li>") := by
      intro X
      simp [String.append_assoc]
    simp only [rowOf]
    rw [h4]
    exact strInfix_appendL _ (strInfix_refl _)

/-- Witness for C8 at a concrete input: the subject of a one-notice digest. -/
theorem format_email_spec_witness :
    (format_email [n1ERP] 2).1 =
      "[ET Tenders] " ++ toString ([n1ERP] : List Notice).length ++
        " new software/ICT notices" :=
  (format_email_spec [n1ERP] 2 (by decide)).1

/-! ### Claim C2: the HTTP retry policy (corrected) -/

/-- C2 counterexample to "no sleep after the final failed attempt": when all
three attempts fail, the loop body sleeps after each failure — including the
third — before `raise`, so three sleeps are performed where the claim allows
only the two between attempts. -/
theorem http_get_sleep_after_final_cex :
    (http_get (fun _ => (Except.error 0 : Except Nat Nat)) (fun _ => (0 : ℚ))).2.1.length = 3 ∧
    (http_get (fun _ => (Except.error 0 : Except Nat Nat)) (fun _ => (0 : ℚ))).2.1.length ≠ 2 :=
  ⟨by decide, by decide⟩

/-- C2 (amended): `http_get` performs at most 3 GET attempts; after every
failed attempt — including the final one, before the failure is re-raised — it
sleeps `base * attempt + jitter` seconds with jitter drawn from [0,1); it
returns the first success, and after exhausting the retries it propagates the
last failure to the caller. -/
theorem http_get_retry_spec {E R : Type} (outcome : Nat → Except E R) (jitter : Nat → ℚ)
    (hj : ∀ i, 0 ≤ jitter i ∧ jitter i < 1) :
    (http_get outcome jitter).2.2 ≤ 3 ∧
    (match outcome 1, outcome 2, outcome 3 with
     | .ok r, _, _ => http_get outcome jitter = (.ok r, [], 1)
     | .error _, .ok r, _ =>
        http_get outcome jitter = (.ok r, [3 * 1 + jitter 1], 2)
     | .error _, .error _, .ok r =>
        http_get outcome jitter = (.ok r, [3 * 1 + jitter 1, 3 * 2 + jitter 2], 3)
     | .error _, .error _, .error e3 =>
        http_get outcome jitter =
          (.error e3, [3 * 1 + jitter 1, 3 * 2 + jitter 2, 3 * 3 + jitter 3], 3)) ∧
    (∀ i, i < (http_get outcome jitter).2.1.length →
      3 * ((i : ℚ) + 1) ≤ (http_get outcome jitter).2.1.getD i 0 ∧
      (http_get outcome jitter).2.1.getD i 0 < 3 * ((i : ℚ) + 1) + 1) := by
  have hmain : (match outcome 1, outcome 2, outcome 3 with
     | .ok r, _, _ => http_get outcome jitter = (.ok r, [], 1)
     | .error _, .ok r, _ =>
        http_get outcome jitter = (.ok r, [3 * 1 + jitter 1], 2)
     | .error _, .error _, .ok r =>
        http_get outcome jitter = (.ok r, [3 * 1 + jitter 1, 3 * 2 + jitter 2], 3)
     | .error _, .error _, .error e3 =>
        http_get outcome jitter =
          (.error e3, [3 * 1 + jitter 1, 3 * 2 + jitter 2, 3 * 3 + jitter 3], 3)) := by
    rcases h1 : outcome 1 with e1 | r1
    · rcases h2 : outcome 2 with e2 | r2
      · rcases h3 : outcome 3 with e3 | r3
        · simp [http_get, http_getAux, RETRY_MAX, RETRY_BASE_SLEEP, h1, h2, h3]
        · simp [http_get, http_getAux, RETRY_MAX, RETRY_BASE_SLEEP, h1, h2, h3]
      · simp [http_get, http_getAux, RETRY_MAX, RETRY_BASE_SLEEP, h1, h2]
    · simp [http_get, http_getAux, RETRY_MAX, RETRY_BASE_SLEEP, h1]
  refine ⟨?_, hmain, ?_⟩
  · rcases h1 : outcome 1 with e1 | r1 <;>
      rcases h2 : outcome 2 with e2 | r2 <;>
      rcases h3 : outcome 3 with e3 | r3 <;>
      simp only [h1, h2, h3] at hmain <;> simp [hmain]
  · intro i h
    rcases h1 : outcome 1 with e1 | r1 <;>
      rcases h2 : outcome 2 with e2 | r2 <;>
      rcases h3 : outcome 3 with e3 | r3 <;>
      simp only [h1, h2, h3] at hmain <;>
      rw [hmain] at h ⊢ <;>
      simp only [List.length_cons, List.length_nil] at h
    all_goals {
      interval_cases i <;>
        simp only [List.getD, List.get?, Option.getD_some] <;>
        constructor <;>
        push_cast <;>
        first
          | linarith [(hj 1).1, (hj 1).2]
          | linarith [(hj 2).1, (hj 2).2]
          | linarith [(hj 3).1, (hj 3).2]
    }

/-- Witness for C2 (amended) at a concrete input: with every attempt failing
and jitter 1/2, the trace is three sleeps 3.5, 6.5, 9.5 and the last error
is propagated. -/
theorem http_get_retry_spec_witness :
    http_get (fun _ => (Except.error 7 : Except Nat Nat)) (fun _ => (1 / 2 : ℚ)) =
      (Except.error 7, [3 * 1 + (1 / 2 : ℚ), 3 * 2 + (1 / 2 : ℚ), 3 * 3 + (1 / 2 : ℚ)], 3) := by
  have h := (http_get_retry_spec (fun _ => (Except.error 7 : Except Nat Nat))
    (fun _ => (1 / 2 : ℚ)) (fun _ => by norm_num)).2.1
  simpa using h

/-! ### Claim C7: fingerprint determinism and field sensitivity (corrected) -/

theorem compress_length (hs block : List Nat) : (compress hs block).length = 8 := by
  simp [compress]

theorem compress_lt (hs block : List Nat) : ∀ w ∈ compress hs block, w < 4294967296 := by
  intro w hw
  simp only [compress, List.mem_cons, List.not_mem_nil, or_false] at hw
  rcases hw with h | h | h | h | h | h | h | h <;>
    exact h ▸ Nat.mod_lt _ (by norm_num)

theorem sha256_foldl_aux (bs : List (List Nat)) :
    ∀ hs : List Nat, hs.length = 8 ∧ (∀ w ∈ hs, w < 4294967296) →
      (bs.foldl compress hs).length = 8 ∧ (∀ w ∈ bs.foldl compress hs, w < 4294967296) := by
  induction bs with
  | nil => intro hs h; simpa using h
  | cons b t ih =>
    intro hs _
    rw [List.foldl_cons]
    exact ih _ ⟨compress_length _ _, compress_lt _ _⟩

theorem sha256_length (msg : List Nat) : (sha256 msg).length = 8 := by
  unfold sha256
  exact (sha256_foldl_aux _ _ ⟨by decide, by decide⟩).1

theorem sha256_lt (msg : List Nat) : ∀ w ∈ sha256 msg, w < 4294967296 := by
  unfold sha256
  exact (sha256_foldl_aux _ _ ⟨by decide, by decide⟩).2

/-- C7 counterexample to strict field sensitivity: the fingerprint is a
fixed-length digest, so by pigeonhole over the infinitely many possible titles
there exist two distinct titles whose notices (other fields held fixed) share
the same fingerprint — "changing any one field yields a different fingerprint"
cannot hold universally. -/
theorem uid_hash_collision_exists :
    ∃ t1 t2 : String, t1 ≠ t2 ∧ uid_hash t1 "" "" "" = uid_hash t2 "" "" "" := by
  have hF := Finite.exists_ne_map_eq_of_infinite
    (fun (t : String) (i : Fin 8) =>
      (⟨(sha256 (strBytes (joinFields t "" "" ""))).get
          ⟨i.val, by rw [sha256_length]; exact i.isLt⟩,
        sha256_lt _ _ (List.get_mem _ _ _)⟩ : Fin 4294967296))
  obtain ⟨t1, t2, hne, hF⟩ := hF
  refine ⟨t1, t2, hne, ?_⟩
  have hsha : sha256 (strBytes (joinFields t1 "" "" "")) =
      sha256 (strBytes (joinFields t2 "" "" "")) := by
    apply List.ext_get (by rw [sha256_length, sha256_length])
    intro i hi1 hi2
    have hcomp := congrFun hF ⟨i, by rw [sha256_length] at hi1; exact hi1⟩
    exact congrArg Fin.val hcomp
  unfold uid_hash
  rw [hsha]

/-- C7 (amended): the fingerprint is computed deterministically (computing it
twice on the same tuple yields identical output); changing any one field while
holding the others fixed always changes the hash input (the four-field joined
encoding is injective in each field); and on the scenario's concrete inputs,
changing any single field does change the fingerprint.  (Universal
per-field distinctness of the digest itself is impossible: see the collision
existence result.) -/
theorem uid_hash_spec :
    (∀ t b d u : String, uid_hash t b d u = uid_hash t b d u) ∧
    (∀ t t' b d u : String, joinFields t b d u = joinFields t' b d u → t = t') ∧
    (∀ t b b' d u : String, joinFields t b d u = joinFields t b' d u → b = b') ∧
    (∀ t b d d' u : String, joinFields t b d u = joinFields t b d' u → d = d') ∧
    (∀ t b d u u' : String, joinFields t b d u = joinFields t b d u' → u = u') ∧
    (uid_hash "ERP System Tender" "" "" "http://x/1" ≠
       uid_hash "Other Title" "" "" "http://x/1" ∧
     uid_hash "ERP System Tender" "" "" "http://x/1" ≠
       uid_hash "ERP System Tender" "b" "" "http://x/1" ∧
     uid_hash "ERP System Tender" "" "" "http://x/1" ≠
       uid_hash "ERP System Tender" "" "d" "http://x/1" ∧
     uid_hash "ERP System Tender" "" "" "http://x/1" ≠
       uid_hash "ERP System Tender" "" "" "http://x/2") := by
  refine ⟨fun t b d u => rfl, ?_, ?_, ?_, ?_, by decide, by decide, by decide, by decide⟩
  · intro t t' b d u h
    have h2 := congrArg String.data h
    simp only [joinFields, strdata_append, List.append_assoc] at h2
    exact String.ext (List.append_cancel_right h2)
  · intro t b b' d u h
    have h2 := congrArg String.data h
    simp only [joinFields, strdata_append, List.append_assoc] at h2
    exact String.ext
      (List.append_cancel_right (List.append_cancel_left (List.append_cancel_left h2)))
  · intro t b d d' u h
    have h2 := congrArg String.data h
    simp only [joinFields, strdata_append, List.append_assoc] at h2
    exact String.ext
      (List.append_cancel_right (List.append_cancel_left (List.append_cancel_left
        (List.append_cancel_left (List.append_cancel_left h2)))))
  · intro t b d u u' h
    have h2 := congrArg String.data h
    simp only [joinFields, strdata_append, List.append_assoc] at h2
    exact String.ext
      (List.append_cancel_left (List.append_cancel_left (List.append_cancel_left
        (List.append_cancel_left (List.append_cancel_left (List.append_cancel_left h2))))))

/-- Witness for C7 (amended) at a concrete input: equal joined encodings force
equal titles. -/
theorem uid_hash_spec_witness : ("a" : String) = "a" :=
  uid_hash_spec.2.1 "a" "a" "b" "c" "d" rfl

/-- Sanity check against the standard SHA-256 test vector for the empty string. -/
theorem sha256_empty_vector :
    toHexStr (sha256 (strBytes "")) =
      "e3b0c44298fc1c149afbf4c8996fb92427ae41e4649b934ca495991b7852b855" := by
  decide

/-- Sanity check against the standard SHA-256 test vector for "abc". -/
theorem sha256_abc_vector :
    toHexStr (sha256 (strBytes "abc")) =
      "ba7816bf8f01cfea414140de5dae2223b00361a396177a9cb410ff61f20015ad" := by
  decide
